import Mathlib

/-!
Shallow embedding of the GIF codec (`SkGifCodec`, `SkGifScanlineDecoder`) of
this repository, together with proofs about the codec's interlace row mapping,
color-table construction, frame-geometry resolution, header transparency
handling and the two row-decode drivers.

Machine integers are modelled as `Nat` (unsigned) or `Int` (signed).  In every
function modelled here the C arithmetic stays far below the 32-bit overflow
boundary for all reachable inputs (GIF dimension and palette fields are 16-bit
and 8-bit quantities), so no explicit wrap-around is needed; `Nat` subtraction
is truncated exactly where the C code's unsigned subtraction cannot underflow
(each subtraction is guarded by the branch condition that makes the minuend
at least as large as the subtrahend).

The destination pixel buffer is modelled at row granularity for the bulk
decoder (`List (List Nat)`, one inner list of packed colors per output row)
and at flat pixel granularity for the scanline decoder (`List Nat`, row-major
with a row stride), because the scanline driver's pointer arithmetic offsets
the buffer by sub-row amounts.  A color-table slot is an `Option Nat`:
`none` models a stack slot the C code never wrote (the `SkPMColor
colorPtr[256]` array is a local array with no initializer).
-/

namespace SkGif

/-- `SkCodec::Result` values used by the gif codec. -/
inductive SkCodecResult where
  | kSuccess
  | kIncompleteInput
  | kInvalidInput
  deriving DecidableEq, Repr

/-- `SkAlphaType` values relevant to `SkGifCodec::ReadHeader`. -/
inductive SkAlphaType where
  | kPremul
  | kOpaque
  deriving DecidableEq, Repr

/-- `ceil_div` from the source: `(a + b - 1) / b`. -/
def ceil_div (a b : Nat) : Nat :=
  (a + b - 1) / b

/-- `get_output_row_interlaced` from the source: output row for an encoded row
of an interlaced gif. -/
def get_output_row_interlaced (encodedRow height : Nat) : Nat :=
  -- First pass
  if encodedRow * 8 < height then encodedRow * 8
  -- Second pass
  else if encodedRow * 4 < height then 4 + 8 * (encodedRow - ceil_div height 8)
  -- Third pass
  else if encodedRow * 2 < height then 2 + 4 * (encodedRow - ceil_div height 4)
  -- Fourth pass
  else 1 + 2 * (encodedRow - ceil_div height 2)

/-- The interlace row mapping exactly as claim C8 words it: the pass of an
encoded row `r` is determined by treating `ceil(h/8), ceil(h/8), ceil(h/4),
ceil(h/2)` as the SIZES of the four passes (pass 1 holding the first
`ceil(h/8)` encoded rows, pass 2 the next `ceil(h/8)`, pass 3 the next
`ceil(h/4)`, pass 4 the next `ceil(h/2)`), and the output row is the pass's
offset (0, 4, 2, 1) plus its stride (8, 8, 4, 2) times the row's index within
the pass. -/
def interlaceClaimedPassSizes (r h : Nat) : Nat :=
  if r < ceil_div h 8 then 0 + 8 * r
  else if r < ceil_div h 8 + ceil_div h 8 then
    4 + 8 * (r - ceil_div h 8)
  else if r < ceil_div h 8 + ceil_div h 8 + ceil_div h 4 then
    2 + 4 * (r - (ceil_div h 8 + ceil_div h 8))
  else
    1 + 2 * (r - (ceil_div h 8 + ceil_div h 8 + ceil_div h 4))

/-- The interlace row mapping with the CORRECT pass boundaries: pass 1 is the
encoded rows `r < ceil(h/8)`, pass 2 those with `r < ceil(h/4)`, pass 3 those
with `r < ceil(h/2)`, pass 4 the rest (so the pass sizes are `ceil(h/8)`,
`ceil(h/4) - ceil(h/8)`, `ceil(h/2) - ceil(h/4)`, `h - ceil(h/2)`); the output
row is the pass's offset (0, 4, 2, 1) plus its stride (8, 8, 4, 2) times the
row's index within the pass. -/
def interlacePassStructure (r h : Nat) : Nat :=
  if r < ceil_div h 8 then 0 + 8 * r
  else if r < ceil_div h 4 then 4 + 8 * (r - ceil_div h 8)
  else if r < ceil_div h 2 then 2 + 4 * (r - ceil_div h 4)
  else 1 + 2 * (r - ceil_div h 2)

/-! ## Header scanning: `find_trans_index` and `ReadHeader`'s alpha type -/

/-- giflib's `GRAPHICS_EXT_FUNC_CODE` (0xF9). -/
def GRAPHICS_EXT_FUNC_CODE : Nat := 249

/-- `SK_MaxU32`, the "no transparent index" sentinel of `find_trans_index`. -/
def SK_MaxU32 : Nat := 4294967295

/-- A giflib `ExtensionBlock`: function code plus payload bytes
(`ByteCount` is `Bytes.length`). -/
structure ExtensionBlock where
  Function : Nat
  Bytes : List Nat
  deriving DecidableEq, Repr

/-- The loop body of `find_trans_index`, which walks the extension blocks in
reverse arrival order (here: head = most recently arrived block) and stops at
the first graphics-control block with at least 4 payload bytes; that block's
bit 0 of byte 0 gates the transparent index stored in byte 3, and the loop
`break`s (returning the sentinel) whether or not the bit is set. -/
def find_trans_index_rev : List ExtensionBlock → Nat
  | [] => SK_MaxU32
  | b :: rest =>
    if b.Function = GRAPHICS_EXT_FUNC_CODE ∧ 4 ≤ b.Bytes.length then
      -- bit 0 of the first payload byte is the transparent color flag
      if b.Bytes.getD 0 0 % 2 = 1 then b.Bytes.getD 3 0 else SK_MaxU32
    else find_trans_index_rev rest

/-- `find_trans_index` from the source, over the blocks in arrival order. -/
def find_trans_index (blocks : List ExtensionBlock) : Nat :=
  find_trans_index_rev blocks.reverse

/-- The alpha type `SkGifCodec::ReadHeader` chooses for the reported image
info: premul when the transparent index might be valid (`transIndex < 256`),
else opaque. -/
def readHeaderAlphaType (transIndex : Nat) : SkAlphaType :=
  if transIndex < 256 then SkAlphaType.kPremul else SkAlphaType.kOpaque

/-! ## Color table construction: `SkGifCodec::initializeColorTable` -/

/-- A giflib palette entry (`GifColorType`): red, green, blue bytes. -/
structure GifColorType where
  Red : Nat
  Green : Nat
  Blue : Nat
  deriving DecidableEq, Repr

/-- `SkPackARGB32`: premultiplied ARGB packing `a << 24 | r << 16 | g << 8 | b`. -/
def SkPackARGB32 (a r g b : Nat) : Nat :=
  a * 2 ^ 24 + r * 2 ^ 16 + g * 2 ^ 8 + b

/-- `SK_ColorTRANSPARENT`: the fully transparent premultiplied color, all
four components zero. -/
def SK_ColorTRANSPARENT : Nat := 0

/-- Alpha component of a packed premultiplied color. -/
def alphaOf (c : Nat) : Nat := c / 2 ^ 24 % 256

/-- A color-table slot is fully transparent when it was written with a packed
color whose alpha component is zero; an unwritten (`none`) slot holds
indeterminate stack memory and is not counted as (or against) anything. -/
def entryFullyTransparent : Option Nat → Bool
  | some c => alphaOf c == 0
  | none => false

/-- The active color map: the local color table if present, else the global
one (`fGif->Image.ColorMap`, falling back to `fGif->SColorMap`). -/
def activeColors (localMap globalMap : Option (List GifColorType)) : List GifColorType :=
  match localMap with
  | some m => m
  | none =>
    match globalMap with
    | some m => m
    | none => []

/-- The palette-copy loop of `initializeColorTable`: index `i < colorCount`
holds the packed opaque palette color, anything above is not yet written. -/
def baseColorTable (colors : List GifColorType) : Nat → Option Nat := fun i =>
  match colors.get? i with
  | some c => some (SkPackARGB32 255 c.Red c.Green c.Blue)
  | none => none

/-- The fill-index resolution of `initializeColorTable`: the transparent index
when it is inside the palette, else the background index when it is inside the
palette, else the constructor default 0. -/
def resolveFillIndex (colorCount fTransIndex backgroundIndex : Nat) : Nat :=
  if fTransIndex < colorCount then fTransIndex
  else if backgroundIndex < colorCount then backgroundIndex
  else 0

/-- The table after the transparency branch of `initializeColorTable`: the
entry at `fTransIndex` is overwritten with `SK_ColorTRANSPARENT` exactly when
`fTransIndex < colorCount` (the background branch writes no color). -/
def markTransparent (colors : List GifColorType) (fTransIndex : Nat) :
    Nat → Option Nat := fun i =>
  if fTransIndex < colors.length ∧ i = fTransIndex then some SK_ColorTRANSPARENT
  else baseColorTable colors i

/-- `SkGifCodec::initializeColorTable`, producing the 256-entry color table
(as a function on indices; only indices `< 256` model the C array), the
resolved `fFillIndex`, and the color count reported through
`inputColorCount` (the code sets `*inputColorCount = maxColors` up front; the
external `copy_color_table` helper only copies colors out and leaves the
count alone).  The table entry at `fTransIndex` is overwritten with
`SK_ColorTRANSPARENT` only in the branch where `fTransIndex < colorCount`,
and the final loop copies the entry at `fFillIndex` into every index at or
above `colorCount`. -/
def initializeColorTable (localMap globalMap : Option (List GifColorType))
    (sBackGroundColor fTransIndex : Nat) : (Nat → Option Nat) × Nat × Nat :=
  let colors := activeColors localMap globalMap
  let colorCount := colors.length
  let table1 := markTransparent colors fTransIndex
  let fFillIndex := resolveFillIndex colorCount fTransIndex sBackGroundColor
  let table2 : Nat → Option Nat := fun i =>
    if colorCount ≤ i then table1 fFillIndex else table1 i
  (table2, fFillIndex, 256)

/-! ## Frame geometry: `SkGifCodec::setFrameDimensions` -/

/-- The fields of a giflib `GifImageDesc` used by `setFrameDimensions`
(`GifWord` is a signed int). -/
structure GifImageDesc where
  Left : Int
  Top : Int
  Width : Int
  Height : Int
  deriving DecidableEq, Repr

/-- The resolved frame rectangle (`fFrameDims`). -/
structure FrameRect where
  left : Int
  top : Int
  width : Int
  height : Int
  deriving DecidableEq, Repr

/-- `SkGifCodec::setFrameDimensions`: validates and corrects the declared
frame rectangle against the logical canvas.  Returns `none` on the hard
failure (non-positive frame size), otherwise the corrected rectangle together
with the `fFrameIsSubset` flag (initially `false`, set when the corrected
size differs from the canvas size). -/
def setFrameDimensions (canvasWidth canvasHeight : Int) (desc : GifImageDesc) :
    Option (FrameRect × Bool) :=
  if desc.Width ≤ 0 ∨ desc.Height ≤ 0 then none
  else
    -- (frameWidth, frameLeft) after the horizontal warnings-and-fixes chain
    let wl : Int × Int :=
      if desc.Width > canvasWidth then (canvasWidth, 0)
      else if desc.Left + desc.Width > canvasWidth then
        (desc.Width, canvasWidth - desc.Width)
      else if desc.Left < 0 then (desc.Width, 0)
      else (desc.Width, desc.Left)
    -- (frameHeight, frameTop) after the vertical warnings-and-fixes chain
    let ht : Int × Int :=
      if desc.Height > canvasHeight then (canvasHeight, 0)
      else if desc.Top + desc.Height > canvasHeight then
        (desc.Height, canvasHeight - desc.Height)
      else if desc.Top < 0 then (desc.Height, 0)
      else (desc.Height, desc.Top)
    some (⟨wl.2, ht.2, wl.1, ht.1⟩,
      if canvasWidth = wl.1 ∧ canvasHeight = ht.1 then false else true)

/-! ## Bulk decode: the row loops of `SkGifCodec::onGetPixels`

The external decompressor (`DGifGetLine` via `readRow`) is modelled by the
list `avail` of the rows of palette indices it successfully produces, in
encoding order; the call for row `y` fails exactly when `y ≥ avail.length`.
The destination is a list of output rows. -/

/-- One swizzle of a row of palette indices through the color table
(`SkSwizzler` in `kIndex` mode looks each source index up in the table). -/
def swizzleRow (table : Nat → Nat) (src : List Nat) : List Nat :=
  src.map table

/-- The error-recovery loop of the interlaced branch: after `readRow` fails at
encoded row `y`, the source buffer is `memset` to `fillIndex` and the
remaining encoded rows `y..h-1` are swizzled from it into their
interlace-mapped output rows. -/
def errorFillInterlaced (table : Nat → Nat) (fillIndex w h : Nat) :
    Nat → List (List Nat) → List (List Nat)
  | y, dst =>
    if hy : y < h then
      errorFillInterlaced table fillIndex w h (y + 1)
        (dst.set (get_output_row_interlaced y h)
          (swizzleRow table (List.replicate w fillIndex)))
    else dst
  termination_by y _ => h - y

/-- The interlaced branch of `onGetPixels`: each successfully read row is
swizzled into the output row `get_output_row_interlaced y h`; on a read
failure the remainder of the image is filled and `kIncompleteInput` is
returned. -/
def gifInterlacedLoop (table : Nat → Nat) (fillIndex w h : Nat)
    (avail : List (List Nat)) : Nat → List (List Nat) → SkCodecResult × List (List Nat)
  | y, dst =>
    if hy : y < h then
      match avail.get? y with
      | some srcRow =>
        gifInterlacedLoop table fillIndex w h avail (y + 1)
          (dst.set (get_output_row_interlaced y h) (swizzleRow table srcRow))
      | none =>
        (SkCodecResult.kIncompleteInput, errorFillInterlaced table fillIndex w h y dst)
    else (SkCodecResult.kSuccess, dst)
  termination_by y _ => h - y

/-- `SkSwizzler::Fill` at row granularity: writes `numRows` consecutive
destination rows starting at row `start`, each holding `dstWidth` copies of
the fill color. -/
def skSwizzlerFillRows (fillRow : List Nat) :
    Nat → Nat → List (List Nat) → List (List Nat)
  | _, 0, dst => dst
  | start, numRows + 1, dst =>
    skSwizzlerFillRows fillRow (start + 1) numRows (dst.set start fillRow)

/-- The standard (non-interlaced) branch of `onGetPixels`: each successfully
read row is swizzled into output row `y`; on a read failure
`SkSwizzler::Fill` paints the remaining `h - y` rows (each `dstWidth` pixels
wide, from `dstInfo`) with the fill color and `kIncompleteInput` is
returned. -/
def gifStandardLoop (table : Nat → Nat) (fillIndex dstWidth h : Nat)
    (avail : List (List Nat)) : Nat → List (List Nat) → SkCodecResult × List (List Nat)
  | y, dst =>
    if hy : y < h then
      match avail.get? y with
      | some srcRow =>
        gifStandardLoop table fillIndex dstWidth h avail (y + 1)
          (dst.set y (swizzleRow table srcRow))
      | none =>
        (SkCodecResult.kIncompleteInput,
          skSwizzlerFillRows (List.replicate dstWidth (table fillIndex)) y (h - y) dst)
    else (SkCodecResult.kSuccess, dst)
  termination_by y _ => h - y

/-- The row-decoding part of `SkGifCodec::onGetPixels` (after swizzler setup):
dispatches on `fGif->Image.Interlace`.  `w` is the frame width
(`fFrameDims.width()`), `dstWidth` the destination row width from `dstInfo`
(equal to `w` whenever the frame is not a subset of the canvas). -/
def onGetPixelsDecodeLoop (interlaced : Bool) (table : Nat → Nat)
    (fillIndex w dstWidth h : Nat) (avail : List (List Nat))
    (dst : List (List Nat)) : SkCodecResult × List (List Nat) :=
  if interlaced then gifInterlacedLoop table fillIndex w h avail 0 dst
  else gifStandardLoop table fillIndex dstWidth h avail 0 dst

/-- The output row an encoded row `y` lands in: interlace-mapped for
interlaced frames, identity otherwise. -/
def outputRowOf (interlaced : Bool) (h y : Nat) : Nat :=
  if interlaced then get_output_row_interlaced y h else y

/-! ## Scanline decode: `SkGifScanlineDecoder::onGetScanlines`, subset frame

Here the destination is a flat row-major pixel list (the caller's buffer for
`count` rows), with `W`-pixel rows and a row stride of `W` pixels
(`rowBytes`), because this driver offsets its destination pointer by sub-row
amounts (`fFrameDims.left()` pixels). -/

/-- `SkTMin` on ints. -/
def SkTMin (a b : Int) : Int := min a b

/-- Writes the pixels `ps` at consecutive flat positions starting at
`start`. -/
def writePixels (start : Nat) : List Nat → List Nat → List Nat
  | [], dst => dst
  | p :: ps, dst => writePixels (start + 1) ps (dst.set start p)

/-- `SkSwizzler::Fill` on a flat buffer: `numRows` rows of `width` pixels of
the fill color, starting at flat position `start`, successive rows `stride`
pixels apart. -/
def skSwizzlerFillFlat (width stride color : Nat) :
    Nat → Nat → List Nat → List Nat
  | _, 0, dst => dst
  | start, numRows + 1, dst =>
    skSwizzlerFillFlat width stride color (start + stride) numRows
      (writePixels start (List.replicate width color) dst)

/-- The read-swizzle loop of `onGetScanlines`, iterating on the remaining
row count `count - i`: row `i` of `avail` is swizzled to `frameWidth` pixels
written at the current flat position, which advances by `rowBytes` (= `W`)
per row; on a read failure `SkSwizzler::Fill` paints the remaining `count -
i` rows of `dstInfo` width `W` from the current position and
`kIncompleteInput` is returned. -/
def gifScanlineLoop (table : Nat → Nat) (fillIndex W : Nat)
    (avail : List (List Nat)) : Nat → Nat → Nat → List Nat → SkCodecResult × List Nat
  | 0, _, _, dst => (SkCodecResult.kSuccess, dst)
  | remaining + 1, i, pos, dst =>
    match avail.get? i with
    | some srcRow =>
      gifScanlineLoop table fillIndex W avail remaining (i + 1) (pos + W)
        (writePixels pos (swizzleRow table srcRow) dst)
    | none =>
      (SkCodecResult.kIncompleteInput,
        skSwizzlerFillFlat W W (table fillIndex) pos (remaining + 1) dst)

/-- `SkGifScanlineDecoder::onGetScanlines` for a subset frame (the
`fFrameIsSubset` branch followed by the decode loop): fill the `count`
requested rows with the fill color, clamp the iteration count against the
rows before and after the frame (`SkTMin(0, ...)` exactly as the source has
it), offset the destination by the rows before the frame and by
`fFrameDims.left()` pixels, then run the decode loop.  `getY` is the base
class's current scanline position; each row of `avail` carries
`fFrameDims.width()` palette indices (the subset swizzler's row width). -/
def onGetScanlinesSubset (table : Nat → Nat) (fillIndex : Nat)
    (frameLeft frameTop frameHeight : Int) (W : Nat)
    (getY count : Int) (avail : List (List Nat)) (dst : List Nat) :
    SkCodecResult × List Nat :=
  let dst1 := skSwizzlerFillFlat W W (table fillIndex) 0 count.toNat dst
  let rowsBeforeFrame := frameTop - getY
  let count1 := if rowsBeforeFrame > 0 then SkTMin 0 (count - rowsBeforeFrame) else count
  let off1 : Nat := if rowsBeforeFrame > 0 then W * rowsBeforeFrame.toNat else 0
  let rowsAfterFrame := getY + count1 - (frameTop + frameHeight)
  let count2 := if rowsAfterFrame > 0 then SkTMin 0 (count1 - rowsAfterFrame) else count1
  let off2 := off1 + frameLeft.toNat
  gifScanlineLoop table fillIndex W avail count2.toNat 0 off2 dst1

/-! ## Theorems: interlace mapping -/

/-- The interlace mapping sends every in-range encoded row to an in-range
output row. -/
theorem get_output_row_interlaced_lt {r h : Nat} (hr : r < h) :
    get_output_row_interlaced r h < h := by
  unfold get_output_row_interlaced ceil_div
  split_ifs <;> omega

/-- The interlace mapping is injective on encoded rows `0..h-1`. -/
theorem get_output_row_interlaced_injOn {h r1 r2 : Nat} (h1 : r1 < h) (h2 : r2 < h)
    (heq : get_output_row_interlaced r1 h = get_output_row_interlaced r2 h) :
    r1 = r2 := by
  unfold get_output_row_interlaced ceil_div at heq
  split_ifs at heq <;> omega

/-- The interlace mapping restricted to `[0,h)` is a bijection onto `[0,h)`. -/
theorem get_output_row_interlaced_bijOn (h : Nat) :
    Set.BijOn (fun r => get_output_row_interlaced r h) (Set.Iio h) (Set.Iio h) := by
  have hmaps : Set.MapsTo (fun r => get_output_row_interlaced r h)
      (Set.Iio h) (Set.Iio h) := fun r hr => get_output_row_interlaced_lt hr
  refine (Set.Finite.injOn_iff_bijOn_of_mapsTo (Set.finite_Iio h) hmaps).mp ?_
  intro r1 h1 r2 h2 heq
  exact get_output_row_interlaced_injOn h1 h2 heq

/-- C2: for every frame height `h ≥ 1`, the interlace row mapping
`get_output_row_interlaced`, restricted to encoded-row indices `0..h-1`, is a
bijection onto output-row indices `0..h-1`; in particular every encoded row
`r < h` is sent to an output row `< h`. -/
theorem claim_C2_interlace_bijection (h : Nat) (hpos : 1 ≤ h) :
    (∀ r < h, get_output_row_interlaced r h < h) ∧
    Set.BijOn (fun r => get_output_row_interlaced r h) (Set.Iio h) (Set.Iio h) :=
  ⟨fun _ hr => get_output_row_interlaced_lt hr, get_output_row_interlaced_bijOn h⟩

/-- Witness for C2 at the concrete height `h = 9`. -/
theorem claim_C2_witness :
    1 ≤ 9 ∧ ((∀ r < 9, get_output_row_interlaced r 9 < 9) ∧
      Set.BijOn (fun r => get_output_row_interlaced r 9) (Set.Iio 9) (Set.Iio 9)) :=
  ⟨by decide, claim_C2_interlace_bijection 9 (by decide)⟩

/-- C8 counterexample: with `h = 2` and encoded row `r = 1`, the pass
bookkeeping worded in the claim (pass sizes `ceil(h/8), ceil(h/8), ceil(h/4),
ceil(h/2)`) places row 1 in pass 2 and computes output row 4, while
`get_output_row_interlaced` computes output row 1 (row 1 of a 2-row
interlaced frame is in pass 4). -/
theorem claim_C8_counterexample :
    interlaceClaimedPassSizes 1 2 = 4 ∧ get_output_row_interlaced 1 2 = 1 ∧
      interlaceClaimedPassSizes 1 2 ≠ get_output_row_interlaced 1 2 := by
  decide

/-- C8 (amended): the pass of an encoded row `r` is determined by the
cumulative pass thresholds `ceil(h/8)`, `ceil(h/4)`, `ceil(h/2)` — so the
pass SIZES are `ceil(h/8)`, `ceil(h/4) - ceil(h/8)`, `ceil(h/2) - ceil(h/4)`
and `h - ceil(h/2)` — and the output row is that pass's offset (0, 4, 2, 1)
plus its stride (8, 8, 4, 2) times `r`'s index within the pass; this matches
`get_output_row_interlaced` on every input. -/
theorem claim_C8_pass_structure (r h : Nat) :
    interlacePassStructure r h = get_output_row_interlaced r h := by
  unfold interlacePassStructure get_output_row_interlaced ceil_div
  split_ifs <;> omega

/-- C9 counterexample: for a two-color palette the number of colors reported
back through `inputColorCount` is 256, not the actual palette color count
(2) capped at 256. -/
theorem claim_C9_counterexample :
    (initializeColorTable (some [⟨0, 0, 0⟩, ⟨255, 255, 255⟩]) none 0 300).2.2 = 256 ∧
      min 2 256 ≠ 256 := by
  decide

/-- C9 (amended): the color-table builder always reports 256 colors to the
caller (`*inputColorCount = maxColors`), regardless of the palette's actual
color count and of whether any palette is present. -/
theorem claim_C9_reported_colors (localMap globalMap : Option (List GifColorType))
    (bg trans : Nat) :
    (initializeColorTable localMap globalMap bg trans).2.2 = 256 := rfl

set_option maxRecDepth 4096 in
/-- C5: evaluating the color-table builder on an input with neither a local
nor a global palette.  The fill index degenerates to 0 and every one of the
256 entries is a copy of the never-written stack slot 0 (`none`): the
produced table is NOT made of defined entries, contradicting the claim (and
the code's own comment that the fill loop "allows for predictable, safe
behavior"). -/
theorem claim_C5_no_palette_uninitialized :
    (initializeColorTable none none 0 4294967295).2.1 = 0 ∧
    ∀ i < 256, (initializeColorTable none none 0 4294967295).1 i = none := by
  decide

/-! ## Theorems: color table -/

/-- Shape of an entry of the built color table: indices at or above the color
count read the (stage-one) entry at the fill index, the rest read their own
stage-one entry. -/
theorem initializeColorTable_entry (localMap globalMap : Option (List GifColorType))
    (bg trans i : Nat) :
    (initializeColorTable localMap globalMap bg trans).1 i =
      if (activeColors localMap globalMap).length ≤ i then
        markTransparent (activeColors localMap globalMap) trans
          (resolveFillIndex (activeColors localMap globalMap).length trans bg)
      else markTransparent (activeColors localMap globalMap) trans i := rfl

/-- The resolved fill index of the built color table. -/
theorem initializeColorTable_fill (localMap globalMap : Option (List GifColorType))
    (bg trans : Nat) :
    (initializeColorTable localMap globalMap bg trans).2.1 =
      resolveFillIndex (activeColors localMap globalMap).length trans bg := rfl

/-- The fill index always lands inside a nonempty palette. -/
theorem resolveFillIndex_lt {n : Nat} (hn : 0 < n) (t b : Nat) :
    resolveFillIndex n t b < n := by
  unfold resolveFillIndex
  split_ifs <;> omega

/-- Palette-range entries of the copy loop are written. -/
theorem baseColorTable_isSome {colors : List GifColorType} {i : Nat}
    (h : i < colors.length) : (baseColorTable colors i).isSome := by
  unfold baseColorTable
  rw [List.get?_eq_get h]
  rfl

/-- Palette-range entries stay written after the transparency branch. -/
theorem markTransparent_isSome {colors : List GifColorType} {t i : Nat}
    (h : i < colors.length) : (markTransparent colors t i).isSome := by
  unfold markTransparent
  split_ifs with hc
  · rfl
  · exact baseColorTable_isSome h

/-- Packing an opaque palette color yields alpha 255. -/
theorem alphaOf_pack {r g b : Nat} (hr : r < 256) (hg : g < 256) (hb : b < 256) :
    alphaOf (SkPackARGB32 255 r g b) = 255 := by
  unfold alphaOf SkPackARGB32
  omega

/-- A palette-range entry of the stage-one table is fully transparent exactly
when it is a valid transparent index's entry. -/
theorem markTransparent_transparent_iff {colors : List GifColorType} {t i : Nat}
    (hbytes : ∀ c ∈ colors, c.Red < 256 ∧ c.Green < 256 ∧ c.Blue < 256)
    (hi : i < colors.length) :
    entryFullyTransparent (markTransparent colors t i) = true ↔
      (t < colors.length ∧ i = t) := by
  unfold markTransparent
  split_ifs with hc
  · simp only [entryFullyTransparent, SK_ColorTRANSPARENT, alphaOf]
    simpa using hc
  · unfold baseColorTable
    rcases hg : colors.get? i with _ | c
    · rw [List.get?_eq_get hi] at hg
      cases hg
    · have hmem : c ∈ colors := List.get?_mem hg
      obtain ⟨h1, h2, h3⟩ := hbytes c hmem
      simp only [entryFullyTransparent, alphaOf_pack h1 h2 h3]
      simpa using hc

/-- C3 counterexample: with the two-color palette `[(1,2,3), (4,5,6)]` and
transparent index 0, the fill index resolves to 0 and entry 0 is transparent,
but entry 7 — which is neither the fill index nor a palette index — is ALSO
fully transparent (the safety fill loop copies the transparent fill color
into every index at or above the color count), so the fill index is not the
only transparent entry.  Moreover with no palette at all, entries are not
defined (they are copies of an unwritten stack slot). -/
theorem claim_C3_counterexample :
    (initializeColorTable (some [⟨1, 2, 3⟩, ⟨4, 5, 6⟩]) none 0 0).2.1 = 0 ∧
    entryFullyTransparent
      ((initializeColorTable (some [⟨1, 2, 3⟩, ⟨4, 5, 6⟩]) none 0 0).1 7) = true ∧
    (7 : Nat) ≠ 0 ∧
    (initializeColorTable none none 0 4294967295).1 7 = none := by
  decide

/-- C3 (amended): for every input whose active palette is nonempty (with
byte-valued channels), all 256 entries of the produced table are defined;
when a valid transparency index exists the fully transparent entries are
exactly the resolved fill index together with every index at or above the
palette color count (which hold copies of the fill entry); when the
transparency index is invalid — whether or not a background index is valid —
no entry of the table is fully transparent. -/
theorem claim_C3_table_invariant (localMap globalMap : Option (List GifColorType))
    (bg trans : Nat)
    (hne : 0 < (activeColors localMap globalMap).length)
    (hbytes : ∀ c ∈ activeColors localMap globalMap,
      c.Red < 256 ∧ c.Green < 256 ∧ c.Blue < 256) :
    (∀ i < 256, ((initializeColorTable localMap globalMap bg trans).1 i).isSome) ∧
    (trans < (activeColors localMap globalMap).length →
      ∀ i < 256,
        (entryFullyTransparent ((initializeColorTable localMap globalMap bg trans).1 i) = true ↔
          (i = (initializeColorTable localMap globalMap bg trans).2.1 ∨
            (activeColors localMap globalMap).length ≤ i))) ∧
    ((activeColors localMap globalMap).length ≤ trans →
      ∀ i < 256,
        entryFullyTransparent ((initializeColorTable localMap globalMap bg trans).1 i)
          = false) := by
  have hfill := resolveFillIndex_lt hne trans bg
  refine ⟨?_, ?_, ?_⟩
  · intro i _
    rw [initializeColorTable_entry]
    split_ifs with h
    · exact markTransparent_isSome hfill
    · exact markTransparent_isSome (by omega)
  · intro htrans i _
    rw [initializeColorTable_entry, initializeColorTable_fill]
    have hfe : resolveFillIndex (activeColors localMap globalMap).length trans bg = trans := by
      unfold resolveFillIndex
      rw [if_pos htrans]
    split_ifs with h
    · rw [markTransparent_transparent_iff hbytes hfill]
      constructor
      · intro _
        exact Or.inr h
      · intro _
        exact ⟨htrans, hfe⟩
    · rw [markTransparent_transparent_iff hbytes (by omega)]
      constructor
      · rintro ⟨_, rfl⟩
        exact Or.inl hfe.symm
      · rintro (rfl | hcon)
        · exact ⟨htrans, hfe⟩
        · omega
  · intro htrans i _
    rw [initializeColorTable_entry]
    have hnt : ¬ trans < (activeColors localMap globalMap).length := by omega
    split_ifs with h
    · rcases Bool.eq_false_or_eq_true
        (entryFullyTransparent (markTransparent (activeColors localMap globalMap) trans
          (resolveFillIndex (activeColors localMap globalMap).length trans bg))) with hb | hb
      · exact absurd ((markTransparent_transparent_iff hbytes hfill).mp hb).1 hnt
      · exact hb
    · rcases Bool.eq_false_or_eq_true
        (entryFullyTransparent (markTransparent (activeColors localMap globalMap) trans i))
        with hb | hb
      · exact absurd ((markTransparent_transparent_iff hbytes (by omega)).mp hb).1 hnt
      · exact hb

/-- Witness for C3 (amended) at the one-color palette `[(1,2,3)]`,
transparent index 0. -/
theorem claim_C3_witness :
    0 < (activeColors (some [⟨1, 2, 3⟩]) none).length ∧
    (∀ c ∈ activeColors (some [⟨1, 2, 3⟩]) none,
      c.Red < 256 ∧ c.Green < 256 ∧ c.Blue < 256) ∧
    ((∀ i < 256, ((initializeColorTable (some [⟨1, 2, 3⟩]) none 0 0).1 i).isSome) ∧
      (0 < (activeColors (some [⟨1, 2, 3⟩]) none).length →
        ∀ i < 256,
          (entryFullyTransparent ((initializeColorTable (some [⟨1, 2, 3⟩]) none 0 0).1 i) = true ↔
            (i = (initializeColorTable (some [⟨1, 2, 3⟩]) none 0 0).2.1 ∨
              (activeColors (some [⟨1, 2, 3⟩]) none).length ≤ i))) ∧
      ((activeColors (some [⟨1, 2, 3⟩]) none).length ≤ 0 →
        ∀ i < 256,
          entryFullyTransparent ((initializeColorTable (some [⟨1, 2, 3⟩]) none 0 0).1 i)
            = false)) :=
  ⟨by decide, by decide, claim_C3_table_invariant (some [⟨1, 2, 3⟩]) none 0 0
    (by decide) (by decide)⟩

/-- C4 counterexample: with the two-color palette `[(1,2,3), (4,5,6)]`, an
invalid transparency index (300) and background index 1, the fill index
resolves to the background index 1, but the table entry there is NOT marked
fully transparent (the code only writes `SK_ColorTRANSPARENT` in the
transparency branch). -/
theorem claim_C4_counterexample :
    (initializeColorTable (some [⟨1, 2, 3⟩, ⟨4, 5, 6⟩]) none 1 300).2.1 = 1 ∧
    entryFullyTransparent
      ((initializeColorTable (some [⟨1, 2, 3⟩, ⟨4, 5, 6⟩]) none 1 300).1 1) = false := by
  decide

/-- C4 (amended): the fill index follows the preference order (transparency
index if inside the palette, else background index if inside the palette,
else 0); the entry at the TRANSPARENCY index is marked fully transparent
when — and only in the branch where — that index is valid (a background fill
index keeps its opaque palette color); every entry at an index at or above
the palette color count is a copy of the entry already stored at the fill
index; and, provided the palette is nonempty, every index `0..255` resolves
to a defined color. -/
theorem claim_C4_fill_resolution (localMap globalMap : Option (List GifColorType))
    (bg trans : Nat) :
    ((initializeColorTable localMap globalMap bg trans).2.1 =
      if trans < (activeColors localMap globalMap).length then trans
      else if bg < (activeColors localMap globalMap).length then bg else 0) ∧
    (trans < (activeColors localMap globalMap).length →
      (initializeColorTable localMap globalMap bg trans).1 trans
        = some SK_ColorTRANSPARENT) ∧
    (∀ i, (activeColors localMap globalMap).length ≤ i →
      (initializeColorTable localMap globalMap bg trans).1 i =
        markTransparent (activeColors localMap globalMap) trans
          ((initializeColorTable localMap globalMap bg trans).2.1)) ∧
    (0 < (activeColors localMap globalMap).length →
      ∀ i < 256, ((initializeColorTable localMap globalMap bg trans).1 i).isSome) := by
  refine ⟨rfl, ?_, ?_, ?_⟩
  · intro htrans
    rw [initializeColorTable_entry]
    rw [if_neg (by omega)]
    unfold markTransparent
    rw [if_pos ⟨htrans, rfl⟩]
  · intro i hi
    rw [initializeColorTable_entry, initializeColorTable_fill]
    rw [if_pos hi]
  · intro hne i _
    rw [initializeColorTable_entry]
    split_ifs with h
    · exact markTransparent_isSome (resolveFillIndex_lt hne trans bg)
    · exact markTransparent_isSome (by omega)

/-- Witness for C4 (amended) at the one-color palette `[(9,9,9)]`,
background index 0, transparency index 300. -/
theorem claim_C4_witness :
    ((initializeColorTable (some [⟨9, 9, 9⟩]) none 0 300).2.1 =
      if 300 < (activeColors (some [⟨9, 9, 9⟩]) none).length then 300
      else if 0 < (activeColors (some [⟨9, 9, 9⟩]) none).length then 0 else 0) ∧
    (300 < (activeColors (some [⟨9, 9, 9⟩]) none).length →
      (initializeColorTable (some [⟨9, 9, 9⟩]) none 0 300).1 300
        = some SK_ColorTRANSPARENT) ∧
    (∀ i, (activeColors (some [⟨9, 9, 9⟩]) none).length ≤ i →
      (initializeColorTable (some [⟨9, 9, 9⟩]) none 0 300).1 i =
        markTransparent (activeColors (some [⟨9, 9, 9⟩]) none) 300
          ((initializeColorTable (some [⟨9, 9, 9⟩]) none 0 300).2.1)) ∧
    (0 < (activeColors (some [⟨9, 9, 9⟩]) none).length →
      ∀ i < 256, ((initializeColorTable (some [⟨9, 9, 9⟩]) none 0 300).1 i).isSome) :=
  claim_C4_fill_resolution (some [⟨9, 9, 9⟩]) none 0 300

/-! ## Theorems: frame geometry -/

/-- C6: on a positive logical canvas `W × H`, the geometry resolver fails
exactly on a non-positive declared frame size, and otherwise returns a region
lying within the canvas with positive size, with the subset flag set whenever
the resolved size differs from the canvas size (the per-axis correction
chain, in source order with first match winning, is the definition of
`setFrameDimensions` itself). -/
theorem claim_C6_frame_geometry (W H : Int) (desc : GifImageDesc)
    (hW : 0 < W) (hH : 0 < H) :
    (setFrameDimensions W H desc = none ↔ (desc.Width ≤ 0 ∨ desc.Height ≤ 0)) ∧
    (∀ r sub, setFrameDimensions W H desc = some (r, sub) →
      (0 ≤ r.left ∧ 0 < r.width ∧ r.left + r.width ≤ W ∧
       0 ≤ r.top ∧ 0 < r.height ∧ r.top + r.height ≤ H)) ∧
    (∀ r sub, setFrameDimensions W H desc = some (r, sub) →
      (r.width ≠ W ∨ r.height ≠ H) → sub = true) := by
  refine ⟨?_, ?_, ?_⟩
  · simp only [setFrameDimensions]
    split_ifs with h
    · simpa using h
    · simpa using h
  · intro r sub heq
    by_cases hcond : desc.Width ≤ 0 ∨ desc.Height ≤ 0
    · simp [setFrameDimensions, hcond] at heq
    · simp only [setFrameDimensions, hcond, if_false, reduceIte] at heq
      rw [Option.some_inj] at heq
      injection heq with h1 h2
      subst h1
      push_neg at hcond
      dsimp only
      split_ifs <;> dsimp only <;> omega
  · intro r sub heq hne
    by_cases hcond : desc.Width ≤ 0 ∨ desc.Height ≤ 0
    · simp [setFrameDimensions, hcond] at heq
    · simp only [setFrameDimensions, hcond, if_false, reduceIte] at heq
      rw [Option.some_inj] at heq
      injection heq with h1 h2
      subst h1
      subst h2
      dsimp only at hne
      rw [if_neg]
      rintro ⟨e1, e2⟩
      rcases hne with hne | hne
      · exact hne e1.symm
      · exact hne e2.symm

/-- Witness for C6 on a 10 × 10 canvas with the declared frame
`(left, top, width, height) = (-2, 3, 5, 4)`. -/
theorem claim_C6_witness :
    (0 : Int) < 10 ∧ (0 : Int) < 10 ∧
    ((setFrameDimensions 10 10 ⟨-2, 3, 5, 4⟩ = none ↔
        ((⟨-2, 3, 5, 4⟩ : GifImageDesc).Width ≤ 0 ∨
          (⟨-2, 3, 5, 4⟩ : GifImageDesc).Height ≤ 0)) ∧
      (∀ r sub, setFrameDimensions 10 10 ⟨-2, 3, 5, 4⟩ = some (r, sub) →
        (0 ≤ r.left ∧ 0 < r.width ∧ r.left + r.width ≤ 10 ∧
         0 ≤ r.top ∧ 0 < r.height ∧ r.top + r.height ≤ 10)) ∧
      (∀ r sub, setFrameDimensions 10 10 ⟨-2, 3, 5, 4⟩ = some (r, sub) →
        (r.width ≠ 10 ∨ r.height ≠ 10) → sub = true)) :=
  ⟨by decide, by decide, claim_C6_frame_geometry 10 10 ⟨-2, 3, 5, 4⟩ (by decide) (by decide)⟩

/-! ## Theorems: header transparency and alpha type -/

/-- With byte-valued payloads, the reverse scan either returns a payload byte
(below 256) or the sentinel `SK_MaxU32`. -/
theorem find_trans_index_rev_byte_or_sentinel (blocks : List ExtensionBlock)
    (hb : ∀ b ∈ blocks, ∀ x ∈ b.Bytes, x < 256) :
    find_trans_index_rev blocks < 256 ∨ find_trans_index_rev blocks = SK_MaxU32 := by
  induction blocks with
  | nil => exact Or.inr rfl
  | cons b rest ih =>
    rw [find_trans_index_rev]
    split_ifs with h1 h2
    · left
      obtain ⟨hf, hlen⟩ := h1
      have h3 : 3 < b.Bytes.length := by omega
      have hgd : b.Bytes.getD 3 0 = b.Bytes.get ⟨3, h3⟩ := by
        unfold List.getD
        rw [List.get?_eq_get h3]
        rfl
      rw [hgd]
      exact hb b (List.mem_cons_self b rest) _ (List.get_mem _ _ _)
    · exact Or.inr rfl
    · exact ih fun b' hb' x hx => hb b' (List.mem_cons_of_mem b hb') x hx

/-- C10: for every list of extension blocks with byte-valued payloads, the
alpha type `ReadHeader` reports is premultiplied exactly when the
transparency index extracted by `find_trans_index` is below 256, and opaque
exactly when no transparency index was found, the sentinel `SK_MaxU32` being
larger than 255. -/
theorem claim_C10_alpha_type (blocks : List ExtensionBlock)
    (hb : ∀ b ∈ blocks, ∀ x ∈ b.Bytes, x < 256) :
    (readHeaderAlphaType (find_trans_index blocks) = SkAlphaType.kPremul ↔
      find_trans_index blocks < 256) ∧
    (readHeaderAlphaType (find_trans_index blocks) = SkAlphaType.kOpaque ↔
      find_trans_index blocks = SK_MaxU32) ∧
    255 < SK_MaxU32 := by
  have hcases : find_trans_index blocks < 256 ∨ find_trans_index blocks = SK_MaxU32 := by
    unfold find_trans_index
    exact find_trans_index_rev_byte_or_sentinel _
      fun b hbmem => hb b (List.mem_reverse.mp hbmem)
  unfold readHeaderAlphaType
  rcases hcases with h | h
  · rw [if_pos h]
    refine ⟨⟨fun _ => h, fun _ => rfl⟩, ⟨fun hc => absurd hc (by decide), fun hc => ?_⟩,
      by decide⟩
    rw [hc] at h
    exact absurd h (by decide)
  · rw [h, if_neg (by decide)]
    exact ⟨⟨fun hc => absurd hc (by decide), fun hc => absurd hc (by decide)⟩,
      ⟨fun _ => rfl, fun _ => rfl⟩, by decide⟩

/-- Witness for C10 on a single graphics-control extension block with the
transparent color flag set and transparent index 7. -/
theorem claim_C10_witness :
    (∀ b ∈ [ExtensionBlock.mk 249 [1, 0, 0, 7]], ∀ x ∈ b.Bytes, x < 256) ∧
    ((readHeaderAlphaType (find_trans_index [ExtensionBlock.mk 249 [1, 0, 0, 7]])
        = SkAlphaType.kPremul ↔
      find_trans_index [ExtensionBlock.mk 249 [1, 0, 0, 7]] < 256) ∧
    (readHeaderAlphaType (find_trans_index [ExtensionBlock.mk 249 [1, 0, 0, 7]])
        = SkAlphaType.kOpaque ↔
      find_trans_index [ExtensionBlock.mk 249 [1, 0, 0, 7]] = SK_MaxU32) ∧
    255 < SK_MaxU32) :=
  ⟨by decide, claim_C10_alpha_type [ExtensionBlock.mk 249 [1, 0, 0, 7]] (by decide)⟩

/-! ## Theorems: bulk decode row loops -/

/-- Rows strictly outside `[start, start + numRows)` are untouched by
`SkSwizzler::Fill`. -/
theorem skSwizzlerFillRows_get?_untouched (fillRow : List Nat) :
    ∀ (n start : Nat) (dst : List (List Nat)) (i : Nat),
    (i < start ∨ start + n ≤ i) →
    (skSwizzlerFillRows fillRow start n dst).get? i = dst.get? i := by
  intro n
  induction n with
  | zero =>
    intro start dst i _
    rw [skSwizzlerFillRows]
  | succ n ih =>
    intro start dst i hi
    rw [skSwizzlerFillRows]
    rw [ih (start + 1) _ i (by omega)]
    exact List.get?_set_ne _ _ (by omega)

/-- Rows inside `[start, start + numRows)` hold the fill row after
`SkSwizzler::Fill`. -/
theorem skSwizzlerFillRows_get?_filled (fillRow : List Nat) :
    ∀ (n start : Nat) (dst : List (List Nat)) (i : Nat),
    start ≤ i → i < start + n → i < dst.length →
    (skSwizzlerFillRows fillRow start n dst).get? i = some fillRow := by
  intro n
  induction n with
  | zero =>
    intro start dst i _ _ _
    omega
  | succ n ih =>
    intro start dst i h1 h2 h3
    rw [skSwizzlerFillRows]
    rcases Nat.eq_or_lt_of_le h1 with rfl | hgt
    · rw [skSwizzlerFillRows_get?_untouched fillRow n (start + 1) _ start (by omega)]
      exact List.get?_set_eq_of_lt _ h3
    · exact ih (start + 1) _ i hgt (by omega) (by simpa using h3)

/-- Output rows that are not the interlace image of a remaining encoded row
are untouched by the interlaced error-recovery fill. -/
theorem errorFillInterlaced_get?_untouched (table : Nat → Nat) (fI w h : Nat) :
    ∀ (n y : Nat), h - y = n → ∀ (dst : List (List Nat)) (i : Nat),
    (∀ y', y ≤ y' → y' < h → get_output_row_interlaced y' h ≠ i) →
    (errorFillInterlaced table fI w h y dst).get? i = dst.get? i := by
  intro n
  induction n with
  | zero =>
    intro y hy dst i _
    rw [errorFillInterlaced]
    rw [dif_neg (by omega)]
  | succ n ih =>
    intro y hy dst i hne
    rw [errorFillInterlaced]
    split_ifs with h1
    · rw [ih (y + 1) (by omega) _ i fun y' hy1 hy2 => hne y' (by omega) hy2]
      exact List.get?_set_ne _ _ (hne y (by omega) h1)
    · rfl

/-- Every remaining encoded row's interlace-mapped output row holds the
swizzled fill-index row after the interlaced error-recovery fill. -/
theorem errorFillInterlaced_get?_filled (table : Nat → Nat) (fI w h : Nat) :
    ∀ (n y : Nat), h - y = n → ∀ (dst : List (List Nat)), h ≤ dst.length →
    ∀ y', y ≤ y' → y' < h →
    (errorFillInterlaced table fI w h y dst).get? (get_output_row_interlaced y' h) =
      some (swizzleRow table (List.replicate w fI)) := by
  intro n
  induction n with
  | zero =>
    intro y hy dst _ y' h1 h2
    omega
  | succ n ih =>
    intro y hy dst hlen y' h1 h2
    rw [errorFillInterlaced]
    rw [dif_pos (by omega)]
    rcases Nat.eq_or_lt_of_le h1 with rfl | hgt
    · rw [errorFillInterlaced_get?_untouched table fI w h n (y + 1) (by omega) _ _
        fun z hz1 hz2 hcon =>
          absurd (get_output_row_interlaced_injOn hz2 h2 hcon) (by omega)]
      exact List.get?_set_eq_of_lt _ (by
        exact Nat.lt_of_lt_of_le (get_output_row_interlaced_lt h2) hlen)
    · exact ih (y + 1) (by omega) _ (by simpa using hlen) y' (by omega) h2

/-- Output rows that are not the interlace image of a remaining encoded row
are untouched by the interlaced decode loop. -/
theorem gifInterlacedLoop_get?_untouched (table : Nat → Nat) (fI w h : Nat)
    (avail : List (List Nat)) :
    ∀ (n y : Nat), h - y = n → ∀ (dst : List (List Nat)) (i : Nat),
    (∀ y', y ≤ y' → y' < h → get_output_row_interlaced y' h ≠ i) →
    (gifInterlacedLoop table fI w h avail y dst).2.get? i = dst.get? i := by
  intro n
  induction n with
  | zero =>
    intro y hy dst i _
    rw [gifInterlacedLoop]
    rw [dif_neg (by omega)]
  | succ n ih =>
    intro y hy dst i hne
    rw [gifInterlacedLoop]
    rw [dif_pos (by omega)]
    rcases hg : avail.get? y with _ | r
    · exact errorFillInterlaced_get?_untouched table fI w h (h - y) y rfl dst i hne
    · rw [ih (y + 1) (by omega) _ i fun y' hy1 hy2 => hne y' (by omega) hy2]
      exact List.get?_set_ne _ _ (hne y (by omega) (by omega))

/-- Successfully decoded encoded rows end up, swizzled, at their
interlace-mapped output rows. -/
theorem gifInterlacedLoop_get?_decoded (table : Nat → Nat) (fI w h : Nat)
    (avail : List (List Nat)) :
    ∀ (n y : Nat), h - y = n → ∀ (dst : List (List Nat)), h ≤ dst.length →
    ∀ y', y ≤ y' → y' < h → ∀ srcRow, avail.get? y' = some srcRow →
    (gifInterlacedLoop table fI w h avail y dst).2.get? (get_output_row_interlaced y' h) =
      some (swizzleRow table srcRow) := by
  intro n
  induction n with
  | zero =>
    intro y hy dst _ y' h1 h2 srcRow _
    omega
  | succ n ih =>
    intro y hy dst hlen y' h1 h2 srcRow hrow
    rw [gifInterlacedLoop]
    rw [dif_pos (by omega)]
    rcases hg : avail.get? y with _ | r
    · exfalso
      have : avail.get? y' = none := List.get?_eq_none.mpr
        (le_trans (List.get?_eq_none.mp hg) h1)
      rw [hrow] at this
      cases this
    · rcases Nat.eq_or_lt_of_le h1 with rfl | hgt
      · rw [gifInterlacedLoop_get?_untouched table fI w h avail n (y + 1) (by omega) _ _
          fun z hz1 hz2 hcon =>
            absurd (get_output_row_interlaced_injOn hz2 h2 hcon) (by omega)]
        rw [hg] at hrow
        cases hrow
        exact List.get?_set_eq_of_lt _ (Nat.lt_of_lt_of_le (get_output_row_interlaced_lt h2) hlen)
      · exact ih (y + 1) (by omega) _ (by simpa using hlen) y' (by omega) h2 srcRow hrow

/-- Encoded rows past the end of the available input end up as swizzled
fill-index rows at their interlace-mapped output rows. -/
theorem gifInterlacedLoop_get?_filled (table : Nat → Nat) (fI w h : Nat)
    (avail : List (List Nat)) :
    ∀ (n y : Nat), h - y = n → ∀ (dst : List (List Nat)), h ≤ dst.length →
    ∀ y', y ≤ y' → y' < h → avail.get? y' = none →
    (gifInterlacedLoop table fI w h avail y dst).2.get? (get_output_row_interlaced y' h) =
      some (swizzleRow table (List.replicate w fI)) := by
  intro n
  induction n with
  | zero =>
    intro y hy dst _ y' h1 h2 _
    omega
  | succ n ih =>
    intro y hy dst hlen y' h1 h2 hrow
    rw [gifInterlacedLoop]
    rw [dif_pos (by omega)]
    rcases hg : avail.get? y with _ | r
    · exact errorFillInterlaced_get?_filled table fI w h (h - y) y rfl dst hlen y' h1 h2
    · have hne : y ≠ y' := by
        intro hcon
        rw [hcon, hrow] at hg
        cases hg
      exact ih (y + 1) (by omega) _ (by simpa using hlen) y' (by omega) h2 hrow

/-- The interlaced decode loop reports incomplete input when the decompressor
runs out before the frame is complete. -/
theorem gifInterlacedLoop_result (table : Nat → Nat) (fI w h : Nat)
    (avail : List (List Nat)) :
    ∀ (n y : Nat), h - y = n → y ≤ avail.length → avail.length < h →
    ∀ (dst : List (List Nat)),
    (gifInterlacedLoop table fI w h avail y dst).1 = SkCodecResult.kIncompleteInput := by
  intro n
  induction n with
  | zero =>
    intro y hy hk1 hk2 dst
    omega
  | succ n ih =>
    intro y hy hk1 hk2 dst
    rw [gifInterlacedLoop]
    rw [dif_pos (by omega)]
    rcases Nat.lt_or_ge y avail.length with hlt | hge
    · rw [List.get?_eq_get hlt]
      exact ih (y + 1) (by omega) (by omega) hk2 _
    · rw [List.get?_eq_none.mpr hge]

/-- Rows below the cursor are untouched by the standard decode loop. -/
theorem gifStandardLoop_get?_untouched (table : Nat → Nat) (fI dW h : Nat)
    (avail : List (List Nat)) :
    ∀ (n y : Nat), h - y = n → ∀ (dst : List (List Nat)) (i : Nat), i < y →
    (gifStandardLoop table fI dW h avail y dst).2.get? i = dst.get? i := by
  intro n
  induction n with
  | zero =>
    intro y hy dst i _
    rw [gifStandardLoop]
    rw [dif_neg (by omega)]
  | succ n ih =>
    intro y hy dst i hi
    rw [gifStandardLoop]
    rw [dif_pos (by omega)]
    rcases hg : avail.get? y with _ | r
    · exact skSwizzlerFillRows_get?_untouched _ (h - y) y dst i (by omega)
    · rw [ih (y + 1) (by omega) _ i (by omega)]
      exact List.get?_set_ne _ _ (by omega)

/-- Successfully decoded rows end up, swizzled, at their own output rows in
the standard decode loop. -/
theorem gifStandardLoop_get?_decoded (table : Nat → Nat) (fI dW h : Nat)
    (avail : List (List Nat)) :
    ∀ (n y : Nat), h - y = n → ∀ (dst : List (List Nat)), h ≤ dst.length →
    ∀ y', y ≤ y' → y' < h → ∀ srcRow, avail.get? y' = some srcRow →
    (gifStandardLoop table fI dW h avail y dst).2.get? y' = some (swizzleRow table srcRow) := by
  intro n
  induction n with
  | zero =>
    intro y hy dst _ y' h1 h2 srcRow _
    omega
  | succ n ih =>
    intro y hy dst hlen y' h1 h2 srcRow hrow
    rw [gifStandardLoop]
    rw [dif_pos (by omega)]
    rcases hg : avail.get? y with _ | r
    · exfalso
      have : avail.get? y' = none := List.get?_eq_none.mpr
        (le_trans (List.get?_eq_none.mp hg) h1)
      rw [hrow] at this
      cases this
    · rcases Nat.eq_or_lt_of_le h1 with rfl | hgt
      · rw [gifStandardLoop_get?_untouched table fI dW h avail n (y + 1) (by omega) _ _
          (by omega)]
        rw [hg] at hrow
        cases hrow
        exact List.get?_set_eq_of_lt _ (by omega)
      · exact ih (y + 1) (by omega) _ (by simpa using hlen) y' (by omega) h2 srcRow hrow

/-- Rows past the end of the available input are filled with the fill color
by the standard decode loop. -/
theorem gifStandardLoop_get?_filled (table : Nat → Nat) (fI dW h : Nat)
    (avail : List (List Nat)) :
    ∀ (n y : Nat), h - y = n → ∀ (dst : List (List Nat)), h ≤ dst.length →
    ∀ y', y ≤ y' → y' < h → avail.get? y' = none →
    (gifStandardLoop table fI dW h avail y dst).2.get? y' =
      some (List.replicate dW (table fI)) := by
  intro n
  induction n with
  | zero =>
    intro y hy dst _ y' h1 h2 _
    omega
  | succ n ih =>
    intro y hy dst hlen y' h1 h2 hrow
    rw [gifStandardLoop]
    rw [dif_pos (by omega)]
    rcases hg : avail.get? y with _ | r
    · exact skSwizzlerFillRows_get?_filled _ (h - y) y dst y' h1 (by omega) (by omega)
    · have hne : y ≠ y' := by
        intro hcon
        rw [hcon, hrow] at hg
        cases hg
      exact ih (y + 1) (by omega) _ (by simpa using hlen) y' (by omega) h2 hrow

/-- The standard decode loop reports incomplete input when the decompressor
runs out before the frame is complete. -/
theorem gifStandardLoop_result (table : Nat → Nat) (fI dW h : Nat)
    (avail : List (List Nat)) :
    ∀ (n y : Nat), h - y = n → y ≤ avail.length → avail.length < h →
    ∀ (dst : List (List Nat)),
    (gifStandardLoop table fI dW h avail y dst).1 = SkCodecResult.kIncompleteInput := by
  intro n
  induction n with
  | zero =>
    intro y hy hk1 hk2 dst
    omega
  | succ n ih =>
    intro y hy hk1 hk2 dst
    rw [gifStandardLoop]
    rw [dif_pos (by omega)]
    rcases Nat.lt_or_ge y avail.length with hlt | hge
    · rw [List.get?_eq_get hlt]
      exact ih (y + 1) (by omega) (by omega) hk2 _
    · rw [List.get?_eq_none.mpr hge]

/-- C1: for a bulk decode of a frame with `h` rows in which the external row
decompressor produces exactly the rows of `avail` (`k = avail.length < h`)
before failing, the decode loop of `onGetPixels` returns `kIncompleteInput`;
the final destination holds, at the output position of each decoded row
(interlace-mapped when interlaced, identity otherwise), exactly that row
swizzled through the color table, and at the output position of each of the
remaining `h - k` rows a row of the resolved fill color; and every output row
index below `h` is the output position of some encoded row, so no destination
row escapes being written.  `w` is both the frame width and the destination
width (the non-subset configuration of `dstInfo`). -/
theorem claim_C1_partial_failure (interlaced : Bool) (table : Nat → Nat)
    (fillIndex w h : Nat) (avail : List (List Nat)) (dst0 : List (List Nat))
    (hk : avail.length < h) (hd : h ≤ dst0.length) :
    ((onGetPixelsDecodeLoop interlaced table fillIndex w w h avail dst0).1 =
      SkCodecResult.kIncompleteInput) ∧
    (∀ y, (hy : y < avail.length) →
      (onGetPixelsDecodeLoop interlaced table fillIndex w w h avail dst0).2.get?
          (outputRowOf interlaced h y) = some (swizzleRow table (avail.get ⟨y, hy⟩))) ∧
    (∀ y, avail.length ≤ y → y < h →
      (onGetPixelsDecodeLoop interlaced table fillIndex w w h avail dst0).2.get?
          (outputRowOf interlaced h y) = some (List.replicate w (table fillIndex))) ∧
    (∀ o, o < h → ∃ y, y < h ∧ outputRowOf interlaced h y = o) := by
  cases interlaced
  case false =>
    simp only [onGetPixelsDecodeLoop, outputRowOf, Bool.false_eq_true, if_false]
    refine ⟨?_, ?_, ?_, ?_⟩
    · exact gifStandardLoop_result table fillIndex w h avail h 0 rfl (by omega) hk dst0
    · intro y hy
      exact gifStandardLoop_get?_decoded table fillIndex w h avail h 0 rfl dst0 hd y
        (by omega) (by omega) _ (List.get?_eq_get hy)
    · intro y hy1 hy2
      exact gifStandardLoop_get?_filled table fillIndex w h avail h 0 rfl dst0 hd y
        (by omega) hy2 (List.get?_eq_none.mpr hy1)
    · intro o ho
      exact ⟨o, ho, rfl⟩
  case true =>
    simp only [onGetPixelsDecodeLoop, outputRowOf, if_true]
    refine ⟨?_, ?_, ?_, ?_⟩
    · exact gifInterlacedLoop_result table fillIndex w h avail h 0 rfl (by omega) hk dst0
    · intro y hy
      exact gifInterlacedLoop_get?_decoded table fillIndex w h avail h 0 rfl dst0 hd y
        (by omega) (by omega) _ (List.get?_eq_get hy)
    · intro y hy1 hy2
      rw [← List.map_replicate (n := w) (f := table) (a := fillIndex)]
      exact gifInterlacedLoop_get?_filled table fillIndex w h avail h 0 rfl dst0 hd y
        (by omega) hy2 (List.get?_eq_none.mpr hy1)
    · intro o ho
      obtain ⟨y, hy, hgy⟩ := (get_output_row_interlaced_bijOn h).surjOn ho
      exact ⟨y, hy, hgy⟩

/-- Witness for C1: an interlaced 3-row, 2-pixel-wide frame whose
decompressor yields exactly one row before failing. -/
theorem claim_C1_witness :
    (List.length [[1, 2]] < 3 ∧ 3 ≤ (List.replicate 3 [0, 0]).length) ∧
    (((onGetPixelsDecodeLoop true (fun i => i + 10) 0 2 2 3 [[1, 2]]
        (List.replicate 3 [0, 0])).1 = SkCodecResult.kIncompleteInput) ∧
    (∀ y, (hy : y < List.length [[1, 2]]) →
      (onGetPixelsDecodeLoop true (fun i => i + 10) 0 2 2 3 [[1, 2]]
        (List.replicate 3 [0, 0])).2.get? (outputRowOf true 3 y) =
          some (swizzleRow (fun i => i + 10) (List.get [[1, 2]] ⟨y, hy⟩))) ∧
    (∀ y, List.length [[1, 2]] ≤ y → y < 3 →
      (onGetPixelsDecodeLoop true (fun i => i + 10) 0 2 2 3 [[1, 2]]
        (List.replicate 3 [0, 0])).2.get? (outputRowOf true 3 y) =
          some (List.replicate 2 ((fun i => i + 10) 0))) ∧
    (∀ o, o < 3 → ∃ y, y < 3 ∧ outputRowOf true 3 y = o)) :=
  ⟨⟨by decide, by decide⟩,
    claim_C1_partial_failure true (fun i => i + 10) 0 2 3 [[1, 2]]
      (List.replicate 3 [0, 0]) (by decide) (by decide)⟩

/-! ## Theorems: subset-frame scanline decode -/

/-- C7: evaluating the subset-frame scanline decoder on the claim's own
scenario — logical canvas 10 × 10, frame region `(2, 3, 4, 4)`, a request for
all 10 rows starting at output row 0, with 4 frame rows of palette index 1
available (the table sends index 0, the fill index, to color 100 and index 1
to color 200).  Because the code computes `count = SkTMin(0, count -
rowsBeforeFrame)` — a minimum where only a maximum makes sense — the decode
loop runs zero times: the call returns success with every one of the 100
destination pixels equal to the fill color 100, and the 4 × 4 decoded block
of color 200 that the claim requires at offset (2,3) is nowhere in the
destination. -/
theorem claim_C7_scanline_subset_bug :
    ((onGetScanlinesSubset (fun i => if i = 0 then 100 else 200) 0 2 3 4 10 0 10
        (List.replicate 4 (List.replicate 4 1)) (List.replicate 100 777)).1
      = SkCodecResult.kSuccess) ∧
    ((onGetScanlinesSubset (fun i => if i = 0 then 100 else 200) 0 2 3 4 10 0 10
        (List.replicate 4 (List.replicate 4 1)) (List.replicate 100 777)).2
      = List.replicate 100 100) ∧
    (100 : Nat) ≠ 200 := by
  decide

end SkGif
